import Mathlib

/-!
Shallow embedding of the warranty-number lifecycle of the LDAS warranty
system server (Express + Mongoose route handlers).

The embedding models the two persistent collections (`WarrantyNumber`
pool and `WarrantyRegistration` ledger) as lists inside a `DB` state and
each route handler as a pure state-passing function:

* `POST /api/register`                      → `register`
* `DELETE /api/admin/registrations/:id`     → `deleteRegistration`
* `POST /api/admin/registrations/:id/unlink`→ `unlinkRegistration`
* `PUT /api/admin/registrations/:id`        → `updateRegistration`
* `POST /api/admin/warranty-numbers/upload` → `bulkInsert`

Timestamps (`new Date()`) are modelled by a `Nat` clock value passed in;
calendar dates are a year/month/day structure, with JavaScript's
`setFullYear(getFullYear() + 1)` semantics captured by `addOneYear`
(day overflow in the target month rolls forward into the next month,
which is exactly the Feb-29 → Mar-1 behaviour of `Date.setFullYear`).
-/

namespace LdasWarranty

/-- A calendar date (year, month, day), as carried by a JS `Date`. -/
structure Date where
  year : Nat
  month : Nat
  day : Nat
deriving DecidableEq

/-- Gregorian leap-year rule, as used by the JS `Date` object. -/
def isLeapYear (y : Nat) : Bool :=
  (y % 4 == 0 && y % 100 != 0) || y % 400 == 0

/-- Number of days of month `m` in year `y` (Gregorian calendar). -/
def daysInMonth (y m : Nat) : Nat :=
  if m == 2 then (if isLeapYear y then 29 else 28)
  else if m == 4 || m == 6 || m == 9 || m == 11 then 30
  else 31

/-- A calendar date is valid when its month and day are in range. -/
def Date.valid (d : Date) : Bool :=
  1 ≤ d.month && d.month ≤ 12 && 1 ≤ d.day && d.day ≤ daysInMonth d.year d.month

/-- JS `d.setFullYear(d.getFullYear() + 1)`: the year is incremented and
month/day are kept; if the day does not exist in the target month
(Feb-29 into a non-leap year) the overflow rolls forward into the next
month, so 2024-02-29 becomes 2025-03-01. -/
def addOneYear (d : Date) : Date :=
  let y := d.year + 1
  if d.day ≤ daysInMonth y d.month then ⟨y, d.month, d.day⟩
  else ⟨y, d.month + 1, d.day - daysInMonth y d.month⟩

/-- One document of the `WarrantyNumber` collection (the pool).
`id` stands for the Mongo `_id`. -/
structure WarrantyNumberRecord where
  id : Nat
  warrantyNumber : String
  productId : String
  productName : String
  isUsed : Bool
  usedAt : Option Nat
  registrationId : Option Nat
  createdAt : Nat
deriving DecidableEq

/-- One document of the `WarrantyRegistration` collection (the ledger). -/
structure RegistrationRecord where
  id : Nat
  firstName : String
  lastName : String
  fullName : String
  email : String
  product : String
  productId : String
  source : String
  orderId : String
  warrantyNumber : String
  purchaseDate : Date
  warrantyStartDate : Nat
  warrantyEndDate : Date
  status : String
  claimDate : Option Nat
  claimType : Option String
  claimNotes : Option String
  claimProcessedBy : Option String
  createdAt : Nat
deriving DecidableEq

/-- The persistent state: both collections plus fresh-id counters
standing for Mongo's generation of unique `_id`s. -/
structure DB where
  pool : List WarrantyNumberRecord
  ledger : List RegistrationRecord
  nextPoolId : Nat
  nextRegId : Nat
deriving DecidableEq

/-- Errors surfaced by the public registration route. -/
inductive RegisterError
  | invalidOrMismatchedCode
  | validationError
deriving DecidableEq

/-- Errors surfaced by the admin registration routes. -/
inductive AdminError
  | notFound
  | validationError
deriving DecidableEq

/-- `WarrantyNumber.findOne({ warrantyNumber, productId, isUsed: false })`. -/
def findAvailable (pool : List WarrantyNumberRecord) (wn pid : String) :
    Option WarrantyNumberRecord :=
  pool.find? (fun r => r.warrantyNumber == wn && r.productId == pid && r.isUsed == false)

/-- The request body of `POST /api/register`.  String fields model the
JSON values, with `""` standing for an absent or empty field (Mongoose
`required` rejects both for strings); the purchase date is structured. -/
structure RegisterInput where
  firstName : String
  lastName : String
  fullName : String
  email : String
  product : String
  productId : String
  source : String
  orderId : String
  warrantyNumber : String
  purchaseDate : Option Date
deriving DecidableEq

/-- Mongoose validation of `WarrantyRegistration.create`: every schema
field marked `required` must be present and non-empty. -/
def RegisterInput.validFields (i : RegisterInput) : Bool :=
  i.firstName != "" && i.lastName != "" && i.fullName != "" && i.email != "" &&
  i.product != "" && i.productId != "" && i.source != "" && i.orderId != "" &&
  i.warrantyNumber != "" && i.purchaseDate.isSome

/-- The registration document built by `WarrantyRegistration.create` in
`POST /api/register` (status defaults to `active`, claim fields unset). -/
def mkRegistration (i : RegisterInput) (pd : Date) (now : Nat) (rid : Nat) :
    RegistrationRecord :=
  { id := rid
    firstName := i.firstName
    lastName := i.lastName
    fullName := i.fullName
    email := i.email
    product := i.product
    productId := i.productId
    source := i.source
    orderId := i.orderId
    warrantyNumber := i.warrantyNumber
    purchaseDate := pd
    warrantyStartDate := now
    warrantyEndDate := addOneYear pd
    status := "active"
    claimDate := none
    claimType := none
    claimNotes := none
    claimProcessedBy := none
    createdAt := now }

/-- `WarrantyNumber.findByIdAndUpdate(poolRecId, { isUsed: true, usedAt:
new Date(), registrationId: regId })` — an unconditional update of the
pool document with the given `_id`. -/
def markUsedStep (pool : List WarrantyNumberRecord) (poolRecId : Nat)
    (now : Nat) (regId : Nat) : List WarrantyNumberRecord :=
  pool.map (fun r =>
    if r.id == poolRecId then
      { r with isUsed := true, usedAt := some now, registrationId := some regId }
    else r)

/-- Value returned by a successful `POST /api/register`. -/
structure RegisterOk where
  registrationId : Nat
  warrantyEndDate : Date
deriving DecidableEq

/-- `POST /api/register`: look up an unused pool record matching the
submitted code and product; on a miss answer the single merged
invalid-code error; otherwise compute the warranty end date, create the
registration (Mongoose validation of required fields), then mark the
pool record used and linked.  The returned `DB` is the state after the
request. -/
def register (db : DB) (i : RegisterInput) (now : Nat) :
    DB × Except RegisterError RegisterOk :=
  match findAvailable db.pool i.warrantyNumber i.productId with
  | none => (db, .error .invalidOrMismatchedCode)
  | some validWarrantyNumber =>
    match i.purchaseDate with
    | none => (db, .error .validationError)
    | some pd =>
      if i.validFields then
        let registration := mkRegistration i pd now db.nextRegId
        let pool2 := markUsedStep db.pool validWarrantyNumber.id now registration.id
        ({ db with
            ledger := db.ledger ++ [registration]
            pool := pool2
            nextRegId := db.nextRegId + 1 },
         .ok ⟨registration.id, addOneYear pd⟩)
      else (db, .error .validationError)

/-- The update object of the free-the-code step: `{ isUsed: false,
usedAt: null, registrationId: null }`. -/
def freeRecord (r : WarrantyNumberRecord) : WarrantyNumberRecord :=
  { r with isUsed := false, usedAt := none, registrationId := none }

/-- `WarrantyNumber.findOneAndUpdate({ warrantyNumber: wn }, { isUsed:
false, usedAt: null, registrationId: null })` — updates the first
matching document, or nothing when the code is absent. -/
def markFreeStep : List WarrantyNumberRecord → String → List WarrantyNumberRecord
  | [], _ => []
  | r :: rest, wn =>
    if r.warrantyNumber == wn then freeRecord r :: rest
    else r :: markFreeStep rest wn

/-- `DELETE /api/admin/registrations/:id`: look up the registration
(404 when absent), free the pool record carrying its warranty number,
then delete the registration; answers the freed warranty number. -/
def deleteRegistration (db : DB) (registrationId : Nat) :
    DB × Except AdminError String :=
  match db.ledger.find? (fun r => r.id == registrationId) with
  | none => (db, .error .notFound)
  | some registration =>
    let pool2 := markFreeStep db.pool registration.warrantyNumber
    let ledger2 := db.ledger.filter (fun r => r.id != registrationId)
    ({ db with pool := pool2, ledger := ledger2 }, .ok registration.warrantyNumber)

/-- `POST /api/admin/registrations/:id/unlink`: look up the registration
(404 when absent), free the pool record carrying its warranty number,
then delete the registration entirely; answers the freed warranty
number. -/
def unlinkRegistration (db : DB) (registrationId : Nat) :
    DB × Except AdminError String :=
  match db.ledger.find? (fun r => r.id == registrationId) with
  | none => (db, .error .notFound)
  | some registration =>
    let pool2 := markFreeStep db.pool registration.warrantyNumber
    let ledger2 := db.ledger.filter (fun r => r.id != registrationId)
    ({ db with pool := pool2, ledger := ledger2 }, .ok registration.warrantyNumber)

/-- One parsed CSV row of the bulk-upload route; `none` stands for a
missing column. -/
structure CsvRow where
  warrantyNumber : Option String
  productId : Option String
  productName : Option String
deriving DecidableEq

/-- JavaScript `String.prototype.trim()`: strip whitespace from both
ends of the string. -/
def trimWS (s : String) : String :=
  String.mk
    (((s.data.dropWhile Char.isWhitespace).reverse.dropWhile
      Char.isWhitespace).reverse)

/-- The `.on('data', ...)` filter of the upload route: keep a row only
when all three columns are present and truthy (non-empty), trimming each
value. -/
def parseRows (rows : List CsvRow) : List (String × String × String) :=
  rows.filterMap (fun d =>
    match d.warrantyNumber, d.productId, d.productName with
    | some wn, some pid, some pname =>
      if wn != "" && pid != "" && pname != "" then
        some (trimWS wn, trimWS pid, trimWS pname)
      else none
    | _, _, _ => none)

/-- A per-item error collected by the upload loop: the duplicate-key
message (Mongo error code 11000) or any other creation failure. -/
inductive BulkError
  | alreadyExists (warrantyNumber : String)
  | otherError (warrantyNumber : String)
deriving DecidableEq

/-- One iteration of the upload loop: `WarrantyNumber.create(item)`,
counting successes and collecting per-item failures without aborting.
Mongoose runs schema validation before the save, so a required field
emptied by trimming fails before the duplicate-key check. -/
def bulkStep (now : Nat) (acc : DB × Nat × List BulkError)
    (item : String × String × String) : DB × Nat × List BulkError :=
  let db := acc.1
  let successCount := acc.2.1
  let errors := acc.2.2
  let wn := item.1
  let pid := item.2.1
  let pname := item.2.2
  if wn == "" || pid == "" || pname == "" then
    (db, successCount, errors ++ [.otherError wn])
  else if db.pool.any (fun r => r.warrantyNumber == wn) then
    (db, successCount, errors ++ [.alreadyExists wn])
  else
    ({ db with
        pool := db.pool ++ [⟨db.nextPoolId, wn, pid, pname, false, none, none, now⟩]
        nextPoolId := db.nextPoolId + 1 },
     successCount + 1, errors)

/-- `POST /api/admin/warranty-numbers/upload`: filter the rows, then
insert each one independently, returning the final state, the success
count and the collected per-item errors. -/
def bulkInsert (db : DB) (rows : List CsvRow) (now : Nat) :
    DB × Nat × List BulkError :=
  (parseRows rows).foldl (bulkStep now) (db, 0, [])

/-- The request body of `PUT /api/admin/registrations/:id`: a partial
update; `none` stands for a field absent from the JSON body.  Every
field defaults to absent. -/
structure UpdatePatch where
  firstName : Option String := none
  lastName : Option String := none
  fullName : Option String := none
  email : Option String := none
  product : Option String := none
  productId : Option String := none
  source : Option String := none
  orderId : Option String := none
  warrantyNumber : Option String := none
  purchaseDate : Option Date := none
  warrantyEndDate : Option Date := none
  status : Option String := none
  claimDate : Option Nat := none
  claimType : Option String := none
  claimNotes : Option String := none
  claimProcessedBy : Option String := none
deriving DecidableEq

/-- The `status` enum of the registration schema. -/
def statusValues : List String := ["active", "expired", "claimed"]

/-- The `claimType` enum of the registration schema. -/
def claimTypeValues : List String := ["replacement", "repair", "refund", "technical"]

/-- An optional enum field is valid when absent or in the enum. -/
def optValid (allowed : List String) : Option String → Bool
  | none => true
  | some s => allowed.contains s

/-- An optional required-string field is valid when absent or non-empty. -/
def optNonempty : Option String → Bool
  | none => true
  | some s => s != ""

/-- Mongoose `runValidators: true` on the update: enum fields must carry
enum values and required string fields cannot be set to empty. -/
def patchValid (p : UpdatePatch) : Bool :=
  optValid statusValues p.status && optValid claimTypeValues p.claimType &&
  optNonempty p.firstName && optNonempty p.lastName && optNonempty p.fullName &&
  optNonempty p.email && optNonempty p.product && optNonempty p.productId &&
  optNonempty p.source && optNonempty p.orderId

/-- The route-level preprocessing of the update body: drop any
`warrantyNumber` key, recompute `warrantyEndDate` when `purchaseDate` is
supplied, and on `status == claimed` default `claimDate` to now and
stamp `claimProcessedBy` with the acting admin's username. -/
def processPatch (p : UpdatePatch) (adminUsername : String) (now : Nat) : UpdatePatch :=
  let p1 := { p with warrantyNumber := none }
  let p2 :=
    match p1.purchaseDate with
    | some pd => { p1 with warrantyEndDate := some (addOneYear pd) }
    | none => p1
  if p2.status == some "claimed" then
    { p2 with
        claimDate := some (p2.claimDate.getD now)
        claimProcessedBy := some adminUsername }
  else p2

/-- Keep the old optional value unless the patch sets a new one. -/
def setOpt {α : Type} (patchVal : Option α) (old : Option α) : Option α :=
  match patchVal with
  | some v => some v
  | none => old

/-- Mongo `$set` semantics of `findByIdAndUpdate(id, updateData)`:
fields present in the update object are overwritten, all others kept. -/
def applyPatch (r : RegistrationRecord) (p : UpdatePatch) : RegistrationRecord :=
  { r with
    firstName := p.firstName.getD r.firstName
    lastName := p.lastName.getD r.lastName
    fullName := p.fullName.getD r.fullName
    email := p.email.getD r.email
    product := p.product.getD r.product
    productId := p.productId.getD r.productId
    source := p.source.getD r.source
    orderId := p.orderId.getD r.orderId
    warrantyNumber := p.warrantyNumber.getD r.warrantyNumber
    purchaseDate := p.purchaseDate.getD r.purchaseDate
    warrantyEndDate := p.warrantyEndDate.getD r.warrantyEndDate
    status := p.status.getD r.status
    claimDate := setOpt p.claimDate r.claimDate
    claimType := setOpt p.claimType r.claimType
    claimNotes := setOpt p.claimNotes r.claimNotes
    claimProcessedBy := setOpt p.claimProcessedBy r.claimProcessedBy }

/-- `PUT /api/admin/registrations/:id`: preprocess the body, run the
update validators, then overwrite the document with the given id
(404 when absent), answering the updated document. -/
def updateRegistration (db : DB) (registrationId : Nat) (p : UpdatePatch)
    (adminUsername : String) (now : Nat) :
    DB × Except AdminError RegistrationRecord :=
  let p3 := processPatch p adminUsername now
  if patchValid p3 then
    match db.ledger.find? (fun r => r.id == registrationId) with
    | none => (db, .error .notFound)
    | some registration =>
      let updated := applyPatch registration p3
      ({ db with
          ledger := db.ledger.map (fun r => if r.id == registrationId then updated else r) },
       .ok updated)
  else (db, .error .validationError)

/-- The operations of the warranty-code lifecycle that the referential
invariant is checked across. -/
inductive Op
  | registerOp (i : RegisterInput) (now : Nat)
  | deleteOp (registrationId : Nat)
  | unlinkOp (registrationId : Nat)
deriving DecidableEq

/-- State reached by one operation (the response is discarded). -/
def applyOp (db : DB) : Op → DB
  | .registerOp i now => (register db i now).1
  | .deleteOp rid => (deleteRegistration db rid).1
  | .unlinkOp rid => (unlinkRegistration db rid).1

/-- State reached by a sequence of lifecycle operations. -/
def runOps (db : DB) (ops : List Op) : DB := ops.foldl applyOp db

/-- The registrations referencing a given warranty code. -/
def refsTo (ledger : List RegistrationRecord) (code : String) :
    List RegistrationRecord :=
  ledger.filter (fun r => r.warrantyNumber == code)

/-- Referential consistency of one pool record against the ledger: a
used record is referenced by exactly one registration and points back at
it; an unused record is referenced by none. -/
def usedConsistent (L : List RegistrationRecord) (w : WarrantyNumberRecord) : Prop :=
  (w.isUsed = true →
    ∃ r ∈ L, refsTo L w.warrantyNumber = [r] ∧ w.registrationId = some r.id) ∧
  (w.isUsed = false → refsTo L w.warrantyNumber = [])

/-- The full state invariant: referential consistency of every pool
record, the unique index on `warrantyNumber`, uniqueness of Mongo
`_id`s in each collection, and freshness of the id counter. -/
def Inv (db : DB) : Prop :=
  (∀ w ∈ db.pool, usedConsistent db.ledger w) ∧
  (db.pool.map (fun w => w.warrantyNumber)).Nodup ∧
  (db.pool.map (fun w => w.id)).Nodup ∧
  (db.ledger.map (fun r => r.id)).Nodup ∧
  (∀ r ∈ db.ledger, r.id < db.nextRegId)

instance {ε α : Type} [DecidableEq ε] [DecidableEq α] : DecidableEq (Except ε α) :=
  fun a b =>
    match a, b with
    | .ok x, .ok y =>
      if h : x = y then .isTrue (by rw [h]) else .isFalse (by simp [h])
    | .error x, .error y =>
      if h : x = y then .isTrue (by rw [h]) else .isFalse (by simp [h])
    | .ok _, .error _ => .isFalse (by simp)
    | .error _, .ok _ => .isFalse (by simp)

instance (L : List RegistrationRecord) (w : WarrantyNumberRecord) :
    Decidable (usedConsistent L w) := by
  unfold usedConsistent; infer_instance

instance (db : DB) : Decidable (Inv db) := by
  unfold Inv; infer_instance

/-! Concrete states and inputs used to instantiate the theorems. -/

/-- A pool holding one available code `WN-1` for product `P1`. -/
def db0 : DB :=
  { pool := [⟨0, "WN-1", "P1", "Headset", false, none, none, 0⟩]
    ledger := []
    nextPoolId := 1
    nextRegId := 0 }

/-- A complete registration submission for code `WN-1`. -/
def i0 : RegisterInput :=
  { firstName := "A", lastName := "B", fullName := "A B", email := "a@b.c"
    product := "Headset", productId := "P1", source := "web", orderId := "O1"
    warrantyNumber := "WN-1", purchaseDate := some ⟨2024, 3, 15⟩ }

/-- The same submission with the required `firstName` field missing. -/
def i0bad : RegisterInput :=
  { i0 with firstName := "" }

/-- The same submission against a different product id. -/
def i0wrong : RegisterInput :=
  { i0 with productId := "P2" }

/-- A lifecycle run: register, delete, register again. -/
def ops0 : List Op :=
  [Op.registerOp i0 5, Op.deleteOp 0, Op.registerOp i0 9]

/-- A pool whose single record is already consumed and linked to
registration 5. -/
def dbUsed : DB :=
  { pool := [⟨0, "WN-1", "P1", "Headset", true, some 10, some 5, 0⟩]
    ledger := [mkRegistration i0 ⟨2024, 3, 15⟩ 10 5]
    nextPoolId := 1
    nextRegId := 6 }

/-- Five well-formed upload rows whose third code collides with `WN-1`. -/
def c7rows : List CsvRow :=
  [⟨some "W1", some "P1", some "N1"⟩,
   ⟨some "W2", some "P1", some "N2"⟩,
   ⟨some "WN-1", some "P1", some "N3"⟩,
   ⟨some "W4", some "P1", some "N4"⟩,
   ⟨some "W5", some "P1", some "N5"⟩]

/-- A patch that only tries to overwrite the warranty number. -/
def wnPatch : UpdatePatch := { warrantyNumber := some "HACK" }

/-- A claim-processing patch that supplies neither `claimDate` nor
`claimProcessedBy`. -/
def claimPatch : UpdatePatch := { status := some "claimed", claimType := some "repair" }

/-- The state `db0` after the successful registration of `i0` at time 5. -/
def db1 : DB := (register db0 i0 5).1

/-- The registration record created by registering `i0` against `db0`
at time 5. -/
def regA : RegistrationRecord := mkRegistration i0 ⟨2024, 3, 15⟩ 5 0

/-- The truthiness filter the upload route applies to a CSV row before
attempting any insertion: all three columns present and non-empty. -/
def rowKept (d : CsvRow) : Bool :=
  match d.warrantyNumber, d.productId, d.productName with
  | some wn, some pid, some pname => wn != "" && pid != "" && pname != ""
  | _, _, _ => false

/-- Frame property of an update: the result agrees with the original
record on the identity and on every field the (processed) patch does
not mention. -/
def unchangedWhereUnpatched (p : UpdatePatch) (reg reg2 : RegistrationRecord) :
    Prop :=
  reg2.id = reg.id ∧
  (p.firstName = none → reg2.firstName = reg.firstName) ∧
  (p.lastName = none → reg2.lastName = reg.lastName) ∧
  (p.fullName = none → reg2.fullName = reg.fullName) ∧
  (p.email = none → reg2.email = reg.email) ∧
  (p.product = none → reg2.product = reg.product) ∧
  (p.productId = none → reg2.productId = reg.productId) ∧
  (p.source = none → reg2.source = reg.source) ∧
  (p.orderId = none → reg2.orderId = reg.orderId) ∧
  (p.warrantyNumber = none → reg2.warrantyNumber = reg.warrantyNumber) ∧
  (p.purchaseDate = none → reg2.purchaseDate = reg.purchaseDate) ∧
  (p.warrantyEndDate = none → reg2.warrantyEndDate = reg.warrantyEndDate) ∧
  (p.status = none → reg2.status = reg.status) ∧
  (p.claimDate = none → reg2.claimDate = reg.claimDate) ∧
  (p.claimType = none → reg2.claimType = reg.claimType) ∧
  (p.claimNotes = none → reg2.claimNotes = reg.claimNotes) ∧
  (p.claimProcessedBy = none → reg2.claimProcessedBy = reg.claimProcessedBy) ∧
  reg2.warrantyStartDate = reg.warrantyStartDate ∧
  reg2.createdAt = reg.createdAt

/-! Helper lemmas about the operations. -/

theorem register_eq_error_none {db : DB} {i : RegisterInput} {now : Nat}
    (h : findAvailable db.pool i.warrantyNumber i.productId = none) :
    register db i now = (db, .error .invalidOrMismatchedCode) := by
  simp [register, h]

theorem register_eq_error_nopd {db : DB} {i : RegisterInput} {now : Nat}
    {w0 : WarrantyNumberRecord}
    (h : findAvailable db.pool i.warrantyNumber i.productId = some w0)
    (hpd : i.purchaseDate = none) :
    register db i now = (db, .error .validationError) := by
  simp [register, h, hpd]

theorem register_eq_error_invalid {db : DB} {i : RegisterInput} {now : Nat}
    {w0 : WarrantyNumberRecord}
    (h : findAvailable db.pool i.warrantyNumber i.productId = some w0)
    (hv : i.validFields = false) :
    register db i now = (db, .error .validationError) := by
  unfold register
  rw [h]
  cases hpd : i.purchaseDate with
  | none => rfl
  | some pd => simp [hv]

theorem register_eq_ok {db : DB} {i : RegisterInput} {now : Nat}
    {w0 : WarrantyNumberRecord} {pd : Date}
    (h : findAvailable db.pool i.warrantyNumber i.productId = some w0)
    (hpd : i.purchaseDate = some pd)
    (hv : i.validFields = true) :
    register db i now =
      ({ pool := markUsedStep db.pool w0.id now db.nextRegId
         ledger := db.ledger ++ [mkRegistration i pd now db.nextRegId]
         nextPoolId := db.nextPoolId
         nextRegId := db.nextRegId + 1 },
       .ok ⟨db.nextRegId, addOneYear pd⟩) := by
  unfold register
  rw [h, hpd]
  simp [hv, mkRegistration]

theorem register_ok_inv {db : DB} {i : RegisterInput} {now : Nat} {r : RegisterOk}
    (h : (register db i now).2 = .ok r) :
    ∃ w0 pd, findAvailable db.pool i.warrantyNumber i.productId = some w0 ∧
      i.purchaseDate = some pd ∧ i.validFields = true ∧
      r = ⟨db.nextRegId, addOneYear pd⟩ := by
  cases hfa : findAvailable db.pool i.warrantyNumber i.productId with
  | none => rw [register_eq_error_none hfa] at h; simp at h
  | some w0 =>
    cases hpd : i.purchaseDate with
    | none => rw [register_eq_error_nopd hfa hpd] at h; simp at h
    | some pd =>
      cases hv : i.validFields with
      | false => rw [register_eq_error_invalid hfa hv] at h; simp at h
      | true =>
        rw [register_eq_ok hfa hpd hv] at h
        exact ⟨w0, pd, rfl, rfl, rfl, by simpa using h.symm⟩

theorem delete_eq_none {db : DB} {rid : Nat}
    (h : db.ledger.find? (fun r => r.id == rid) = none) :
    deleteRegistration db rid = (db, .error .notFound) := by
  simp [deleteRegistration, h]

theorem delete_eq_some {db : DB} {rid : Nat} {reg : RegistrationRecord}
    (h : db.ledger.find? (fun r => r.id == rid) = some reg) :
    deleteRegistration db rid =
      ({ db with
          pool := markFreeStep db.pool reg.warrantyNumber
          ledger := db.ledger.filter (fun r => r.id != rid) },
       .ok reg.warrantyNumber) := by
  simp [deleteRegistration, h]

theorem unlink_eq_delete (db : DB) (rid : Nat) :
    unlinkRegistration db rid = deleteRegistration db rid := rfl

theorem markUsedStep_map_wn (pool : List WarrantyNumberRecord)
    (pid now rid : Nat) :
    (markUsedStep pool pid now rid).map (fun w => w.warrantyNumber) =
      pool.map (fun w => w.warrantyNumber) := by
  unfold markUsedStep
  rw [List.map_map]
  apply List.map_congr_left
  intro w _
  by_cases h : w.id = pid <;> simp [h]

theorem markUsedStep_map_id (pool : List WarrantyNumberRecord)
    (pid now rid : Nat) :
    (markUsedStep pool pid now rid).map (fun w => w.id) =
      pool.map (fun w => w.id) := by
  unfold markUsedStep
  rw [List.map_map]
  apply List.map_congr_left
  intro w _
  by_cases h : w.id = pid <;> simp [h]

theorem markFreeStep_map_wn (pool : List WarrantyNumberRecord) (c : String) :
    (markFreeStep pool c).map (fun w => w.warrantyNumber) =
      pool.map (fun w => w.warrantyNumber) := by
  induction pool with
  | nil => rfl
  | cons w rest ih =>
    by_cases hw : w.warrantyNumber == c <;>
      simp [markFreeStep, hw, freeRecord, ih]

theorem markFreeStep_map_id (pool : List WarrantyNumberRecord) (c : String) :
    (markFreeStep pool c).map (fun w => w.id) =
      pool.map (fun w => w.id) := by
  induction pool with
  | nil => rfl
  | cons w rest ih =>
    by_cases hw : w.warrantyNumber == c <;>
      simp [markFreeStep, hw, freeRecord, ih]

theorem markFreeStep_eq_map {pool : List WarrantyNumberRecord} {c : String}
    (h : (pool.map (fun w => w.warrantyNumber)).Nodup) :
    markFreeStep pool c =
      pool.map (fun w => if w.warrantyNumber = c then freeRecord w else w) := by
  induction pool with
  | nil => rfl
  | cons w rest ih =>
    rw [List.map_cons, List.nodup_cons] at h
    obtain ⟨hnot, hrest⟩ := h
    by_cases hw : w.warrantyNumber = c
    · have hmap : rest.map (fun x => if x.warrantyNumber = c then freeRecord x else x)
          = rest := by
        have hall : ∀ x ∈ rest, (if x.warrantyNumber = c then freeRecord x else x) = x := by
          intro x hx
          have hxc : ¬ x.warrantyNumber = c := by
            intro hceq
            apply hnot
            rw [hw, ← hceq]
            exact List.mem_map_of_mem (fun w => w.warrantyNumber) hx
          simp [hxc]
        rw [List.map_congr_left hall]
        simp
      simp [markFreeStep, hw, hmap]
    · simp [markFreeStep, hw, ih hrest]

theorem refsTo_append (L : List RegistrationRecord) (r : RegistrationRecord)
    (c : String) :
    refsTo (L ++ [r]) c =
      refsTo L c ++ if r.warrantyNumber == c then [r] else [] := by
  by_cases h : r.warrantyNumber == c <;>
    simp [refsTo, List.filter_append, List.filter_cons, h]

theorem refsTo_filter (L : List RegistrationRecord) (q : RegistrationRecord → Bool)
    (c : String) :
    refsTo (L.filter q) c = (refsTo L c).filter q := by
  unfold refsTo
  exact List.filter_comm ..

theorem mem_refsTo {L : List RegistrationRecord} {c : String}
    {r : RegistrationRecord} (h : r ∈ refsTo L c) :
    r ∈ L ∧ r.warrantyNumber = c := by
  unfold refsTo at h
  have := List.mem_filter.mp h
  exact ⟨this.1, by have := this.2; rwa [beq_iff_eq] at this⟩

theorem self_mem_refsTo {L : List RegistrationRecord} {r : RegistrationRecord}
    (h : r ∈ L) : r ∈ refsTo L r.warrantyNumber := by
  unfold refsTo
  exact List.mem_filter.mpr ⟨h, by simp⟩

/-! Preservation of the state invariant by each lifecycle operation. -/

theorem inv_register (db : DB) (i : RegisterInput) (now : Nat) (h : Inv db) :
    Inv (register db i now).1 := by
  obtain ⟨hcons, hcodes, hpids, hrids, hfresh⟩ := h
  cases hfa : findAvailable db.pool i.warrantyNumber i.productId with
  | none =>
    rw [register_eq_error_none hfa]
    exact ⟨hcons, hcodes, hpids, hrids, hfresh⟩
  | some w0 =>
    cases hpd : i.purchaseDate with
    | none =>
      rw [register_eq_error_nopd hfa hpd]
      exact ⟨hcons, hcodes, hpids, hrids, hfresh⟩
    | some pd =>
      cases hv : i.validFields with
      | false =>
        rw [register_eq_error_invalid hfa hv]
        exact ⟨hcons, hcodes, hpids, hrids, hfresh⟩
      | true =>
        rw [register_eq_ok hfa hpd hv]
        have hw0mem : w0 ∈ db.pool := List.mem_of_find?_eq_some hfa
        have hp := List.find?_some hfa
        simp only [Bool.and_eq_true, beq_iff_eq] at hp
        obtain ⟨⟨hw0wn, hw0pid⟩, hw0used⟩ := hp
        have hrefs0 : refsTo db.ledger w0.warrantyNumber = [] :=
          (hcons w0 hw0mem).2 hw0used
        refine ⟨?_, ?_, ?_, ?_, ?_⟩
        · intro w' hw'
          unfold markUsedStep at hw'
          obtain ⟨w, hwmem, hweq⟩ := List.mem_map.mp hw'
          by_cases hid : w.id = w0.id
          · have hww0 : w = w0 :=
              List.inj_on_of_nodup_map hpids hwmem hw0mem hid
            have hw'eq : w' = { w0 with
                isUsed := true, usedAt := some now,
                registrationId := some db.nextRegId } := by
              rw [← hweq, hww0]; simp
            constructor
            · intro _
              refine ⟨mkRegistration i pd now db.nextRegId,
                List.mem_append_right _ (by simp), ?_, ?_⟩
              · have hwn : w'.warrantyNumber = w0.warrantyNumber := by
                  rw [hw'eq]
                rw [hwn, refsTo_append]
                have hbeq : ((mkRegistration i pd now db.nextRegId).warrantyNumber
                    == w0.warrantyNumber) = true := by
                  rw [beq_iff_eq]
                  show i.warrantyNumber = w0.warrantyNumber
                  exact hw0wn.symm
                rw [hbeq, hrefs0]
                rfl
              · rw [hw'eq]
                simp [mkRegistration]
            · intro habs
              rw [hw'eq] at habs
              simp at habs
          · have hw'eq : w' = w := by
              rw [← hweq, if_neg (by simpa using hid)]
            have hwne : w.warrantyNumber ≠ i.warrantyNumber := by
              intro hceq
              exact hid (congrArg (fun x : WarrantyNumberRecord => x.id)
                (List.inj_on_of_nodup_map hcodes hwmem hw0mem
                  (by rw [hceq, hw0wn])))
            have hrw : refsTo (db.ledger ++ [mkRegistration i pd now db.nextRegId])
                w.warrantyNumber = refsTo db.ledger w.warrantyNumber := by
              rw [refsTo_append]
              have hbeq : ((mkRegistration i pd now db.nextRegId).warrantyNumber
                  == w.warrantyNumber) = false := by
                rw [beq_eq_false_iff_ne]
                intro hc
                exact hwne (by rw [← hc]; rfl)
              rw [hbeq]
              simp
            rw [hw'eq]
            constructor
            · intro hu
              obtain ⟨r, hrmem, hr1, hr2⟩ := (hcons w hwmem).1 hu
              exact ⟨r, List.mem_append_left _ hrmem, by rw [hrw]; exact hr1, hr2⟩
            · intro hu
              rw [hrw]
              exact (hcons w hwmem).2 hu
        · rw [markUsedStep_map_wn]; exact hcodes
        · rw [markUsedStep_map_id]; exact hpids
        · rw [List.map_append]
          rw [List.nodup_append]
          refine ⟨hrids, by simp, ?_⟩
          intro a ha hb
          simp only [List.map_cons, List.map_nil, List.mem_singleton] at hb
          obtain ⟨r, hr, hrid⟩ := List.mem_map.mp ha
          have := hfresh r hr
          rw [hrid] at this
          rw [hb] at this
          simp only [mkRegistration] at this
          exact Nat.lt_irrefl _ this
        · intro r hr
          rcases List.mem_append.mp hr with h1 | h2
          · exact Nat.lt_succ_of_lt (hfresh r h1)
          · have : r = mkRegistration i pd now db.nextRegId := by simpa using h2
            rw [this]
            exact Nat.lt_succ_self _

theorem inv_delete (db : DB) (rid : Nat) (h : Inv db) :
    Inv (deleteRegistration db rid).1 := by
  obtain ⟨hcons, hcodes, hpids, hrids, hfresh⟩ := h
  cases hfind : db.ledger.find? (fun r => r.id == rid) with
  | none =>
    rw [delete_eq_none hfind]
    exact ⟨hcons, hcodes, hpids, hrids, hfresh⟩
  | some reg =>
    rw [delete_eq_some hfind]
    have hregmem : reg ∈ db.ledger := List.mem_of_find?_eq_some hfind
    have hregid : reg.id = rid := by
      have := List.find?_some hfind
      rwa [beq_iff_eq] at this
    have hinj := List.inj_on_of_nodup_map hrids
    refine ⟨?_, ?_, ?_, ?_, ?_⟩
    · intro w' hw'
      rw [markFreeStep_eq_map hcodes] at hw'
      obtain ⟨w, hwmem, hweq⟩ := List.mem_map.mp hw'
      by_cases hwc : w.warrantyNumber = reg.warrantyNumber
      · have hw'eq : w' = freeRecord w := by rw [← hweq, if_pos hwc]
        have hfilter : refsTo (db.ledger.filter (fun r => r.id != rid))
            w.warrantyNumber = [] := by
          rw [refsTo_filter]
          by_cases hu : w.isUsed = true
          · obtain ⟨r, hrmem, hr1, hr2⟩ := (hcons w hwmem).1 hu
            rw [hr1]
            have hregin : reg ∈ refsTo db.ledger w.warrantyNumber := by
              rw [hwc]
              exact self_mem_refsTo hregmem
            rw [hr1] at hregin
            have hrreg : reg = r := by simpa using hregin
            have hqr : (r.id != rid) = false := by
              rw [← hrreg]
              simp [hregid]
            simp [List.filter_cons, hqr]
          · have hu2 : w.isUsed = false := by
              revert hu; cases w.isUsed <;> simp
            rw [(hcons w hwmem).2 hu2]
            rfl
        constructor
        · intro habs
          rw [hw'eq] at habs
          simp [freeRecord] at habs
        · intro _
          rw [hw'eq]
          show refsTo _ (freeRecord w).warrantyNumber = []
          simpa [freeRecord] using hfilter
      · have hw'eq : w' = w := by rw [← hweq, if_neg hwc]
        have hkeep : ∀ r ∈ refsTo db.ledger w.warrantyNumber,
            (fun r => r.id != rid) r = true := by
          intro r hr
          obtain ⟨hrl, hrwn⟩ := mem_refsTo hr
          simp only [bne_iff_ne, ne_eq, decide_eq_true_eq]
          intro hrid
          have hreq : r = reg := hinj hrl hregmem (by rw [hrid, hregid])
          exact hwc (by rw [← hrwn, hreq])
        have hrw : refsTo (db.ledger.filter (fun r => r.id != rid))
            w.warrantyNumber = refsTo db.ledger w.warrantyNumber := by
          rw [refsTo_filter]
          exact List.filter_eq_self.mpr hkeep
        rw [hw'eq]
        constructor
        · intro hu
          obtain ⟨r, hrmem, hr1, hr2⟩ := (hcons w hwmem).1 hu
          refine ⟨r, ?_, by rw [hrw]; exact hr1, hr2⟩
          refine List.mem_filter.mpr ⟨hrmem, hkeep r ?_⟩
          rw [hr1]
          simp
        · intro hu
          rw [hrw]
          exact (hcons w hwmem).2 hu
    · rw [markFreeStep_map_wn]; exact hcodes
    · rw [markFreeStep_map_id]; exact hpids
    · exact hrids.sublist ((List.filter_sublist _).map _)
    · intro r hr
      exact hfresh r (List.mem_filter.mp hr).1

theorem inv_applyOp (db : DB) (op : Op) (h : Inv db) : Inv (applyOp db op) := by
  cases op with
  | registerOp i now => exact inv_register db i now h
  | deleteOp rid => exact inv_delete db rid h
  | unlinkOp rid =>
    show Inv (unlinkRegistration db rid).1
    rw [unlink_eq_delete]
    exact inv_delete db rid h

theorem inv_runOps (db : DB) (ops : List Op) (h : Inv db) : Inv (runOps db ops) := by
  induction ops generalizing db with
  | nil => exact h
  | cons op rest ih => exact ih (applyOp db op) (inv_applyOp db op h)

theorem markFree_frees {pool : List WarrantyNumberRecord} {c : String}
    (hnodup : (pool.map fun w => w.warrantyNumber).Nodup) :
    ∀ w ∈ markFreeStep pool c, w.warrantyNumber = c →
      w.isUsed = false ∧ w.usedAt = none ∧ w.registrationId = none := by
  intro w hw hwc
  rw [markFreeStep_eq_map hnodup] at hw
  obtain ⟨w1, hmem, heq⟩ := List.mem_map.mp hw
  by_cases hc : w1.warrantyNumber = c
  · rw [← heq, if_pos hc]
    exact ⟨rfl, rfl, rfl⟩
  · exfalso
    apply hc
    rw [← hwc, ← heq, if_neg hc]

theorem mem_markFreeStep_free {pool : List WarrantyNumberRecord} {c : String}
    {w : WarrantyNumberRecord}
    (hnodup : (pool.map fun w => w.warrantyNumber).Nodup)
    (hmem : w ∈ pool) (hwc : w.warrantyNumber = c) :
    freeRecord w ∈ markFreeStep pool c := by
  rw [markFreeStep_eq_map hnodup]
  have h1 := List.mem_map_of_mem
    (fun x => if x.warrantyNumber = c then freeRecord x else x) hmem
  have h2 : (if w.warrantyNumber = c then freeRecord w else w) ∈
      pool.map (fun x => if x.warrantyNumber = c then freeRecord x else x) := h1
  rwa [if_pos hwc] at h2

theorem mem_markUsedStep_self {pool : List WarrantyNumberRecord}
    {pid now rid : Nat} {w : WarrantyNumberRecord}
    (hmem : w ∈ pool) (hid : w.id = pid) :
    { w with isUsed := true, usedAt := some now, registrationId := some rid }
      ∈ markUsedStep pool pid now rid := by
  unfold markUsedStep
  have h1 := List.mem_map_of_mem
    (fun r => if r.id == pid then
      { r with isUsed := true, usedAt := some now, registrationId := some rid }
      else r) hmem
  have h2 : (if w.id == pid then
      { w with isUsed := true, usedAt := some now, registrationId := some rid }
      else w) ∈
      pool.map (fun r => if r.id == pid then
        { r with isUsed := true, usedAt := some now, registrationId := some rid }
        else r) := h1
  rwa [if_pos (by simp [hid])] at h2

/-! The claims. -/

/-- C1: after every sequence of register, deleteRegistration and
unlinkRegistration operations from a state satisfying the database
invariant, a pool record's `isUsed` flag is `true` if and only if
exactly one registration record in the ledger references its code and
the record's `registrationId` points back at that registration. -/
theorem C1_used_iff_unique_reference (db : DB) (ops : List Op) (h : Inv db) :
    ∀ w ∈ (runOps db ops).pool,
      w.isUsed = true ↔
        ∃ r ∈ (runOps db ops).ledger,
          refsTo (runOps db ops).ledger w.warrantyNumber = [r] ∧
          w.registrationId = some r.id := by
  have h2 := inv_runOps db ops h
  intro w hw
  constructor
  · exact fun hu => (h2.1 w hw).1 hu
  · rintro ⟨r, hrmem, hr1, hr2⟩
    cases hu : w.isUsed with
    | true => rfl
    | false =>
      have hempty := (h2.1 w hw).2 hu
      rw [hempty] at hr1
      simp at hr1

/-- Witness for C1: a concrete pool run through register, delete,
re-register. -/
theorem C1_used_iff_unique_reference_witness :
    Inv db0 ∧
      ∀ w ∈ (runOps db0 ops0).pool,
        w.isUsed = true ↔
          ∃ r ∈ (runOps db0 ops0).ledger,
            refsTo (runOps db0 ops0).ledger w.warrantyNumber = [r] ∧
            w.registrationId = some r.id :=
  ⟨by decide, C1_used_iff_unique_reference db0 ops0 (by decide)⟩

/-- C2: `register` answers the single merged invalid-code error exactly
when no pool record matches the submitted warranty number and product
with `isUsed = false` — code absent, code used and wrong product all
collapse into it — and on that failure neither collection is
modified. -/
theorem C2_merged_invalid_code_error (db : DB) (i : RegisterInput) (now : Nat) :
    ((register db i now).2 = .error .invalidOrMismatchedCode ↔
      ¬ ∃ w ∈ db.pool, w.warrantyNumber = i.warrantyNumber ∧
        w.productId = i.productId ∧ w.isUsed = false) ∧
    ((register db i now).2 = .error .invalidOrMismatchedCode →
      (register db i now).1 = db) := by
  cases hfa : findAvailable db.pool i.warrantyNumber i.productId with
  | none =>
    have heq : register db i now = (db, .error .invalidOrMismatchedCode) :=
      register_eq_error_none hfa
    unfold findAvailable at hfa
    rw [List.find?_eq_none] at hfa
    refine ⟨⟨fun _ => ?_, fun _ => by rw [heq]⟩, fun _ => by rw [heq]⟩
    rintro ⟨w, hwmem, h1, h2, h3⟩
    exact (hfa w hwmem) (by simp [h1, h2, h3])
  | some w0 =>
    have hne : (register db i now).2 ≠ .error .invalidOrMismatchedCode := by
      cases hpd : i.purchaseDate with
      | none =>
        rw [register_eq_error_nopd hfa hpd]
        simp
      | some pd =>
        cases hv : i.validFields with
        | false =>
          rw [register_eq_error_invalid hfa hv]
          simp
        | true =>
          rw [register_eq_ok hfa hpd hv]
          simp
    have hex : ∃ w ∈ db.pool, w.warrantyNumber = i.warrantyNumber ∧
        w.productId = i.productId ∧ w.isUsed = false := by
      have hp := List.find?_some hfa
      simp only [Bool.and_eq_true, beq_iff_eq] at hp
      exact ⟨w0, List.mem_of_find?_eq_some hfa, hp.1.1, hp.1.2, hp.2⟩
    exact ⟨⟨fun habs => absurd habs hne, fun hnex => absurd hex hnex⟩,
      fun habs => absurd habs hne⟩

/-- Witness for C2: registering against the wrong product yields the
merged error and leaves the state untouched. -/
theorem C2_merged_invalid_code_error_witness :
    (register db0 i0wrong 5).2 = .error .invalidOrMismatchedCode ∧
    (register db0 i0wrong 5).1 = db0 :=
  ⟨(C2_merged_invalid_code_error db0 i0wrong 5).1.mpr (by decide),
   (C2_merged_invalid_code_error db0 i0wrong 5).2
     ((C2_merged_invalid_code_error db0 i0wrong 5).1.mpr (by decide))⟩

/-- C3 as stated is false of the code: the mark-used step is an
unconditional `findByIdAndUpdate`.  On a pool whose only record is
already used (`isUsed = true`, linked to registration 5) the step
reports no AlreadyUsed failure and transitions the record anyway,
overwriting `usedAt` and `registrationId`. -/
theorem C3_counterexample :
    (dbUsed.pool.map fun w => w.isUsed) = [true] ∧
    markUsedStep dbUsed.pool 0 20 9 =
      [⟨0, "WN-1", "P1", "Headset", true, some 20, some 9, 0⟩] ∧
    markUsedStep dbUsed.pool 0 20 9 ≠ dbUsed.pool := by
  refine ⟨by decide, by decide, by decide⟩

/-- C3 amended: the mark-used step of `register` is an unconditional
update of the pool record with the given id — it sets `isUsed = true`,
`usedAt = now` and `registrationId` regardless of the record's prior
`used` flag and has no NotFound or AlreadyUsed outcome; within
`register` the transition nevertheless starts from `isUsed = false`
only because the step is guarded by the preceding lookup filtered on
`isUsed: false`. -/
theorem C3_markUsedStep_unconditional :
    (∀ pool pid now rid, ∀ w ∈ markUsedStep pool pid now rid,
      ∃ w0 ∈ pool,
        (w0.id ≠ pid ∧ w = w0) ∨
        (w0.id = pid ∧ w = { w0 with
            isUsed := true, usedAt := some now, registrationId := some rid })) ∧
    (∀ db i now r, (register db i now).2 = .ok r →
      ∃ w0, findAvailable db.pool i.warrantyNumber i.productId = some w0 ∧
        w0.isUsed = false) := by
  constructor
  · intro pool pid now rid w hw
    unfold markUsedStep at hw
    obtain ⟨w0, hmem, heq⟩ := List.mem_map.mp hw
    refine ⟨w0, hmem, ?_⟩
    by_cases hid : w0.id = pid
    · right
      exact ⟨hid, by rw [← heq]; simp [hid]⟩
    · left
      exact ⟨hid, by rw [← heq]; simp [hid]⟩
  · intro db i now r h
    obtain ⟨w0, pd, hfa, hpd, hv, hr⟩ := register_ok_inv h
    have hp := List.find?_some hfa
    simp only [Bool.and_eq_true, beq_iff_eq] at hp
    exact ⟨w0, hfa, hp.2⟩

/-- Witness for the amended C3 at a concrete successful registration. -/
theorem C3_markUsedStep_unconditional_witness :
    ∃ w0, findAvailable db0.pool i0.warrantyNumber i0.productId = some w0 ∧
      w0.isUsed = false :=
  C3_markUsedStep_unconditional.2 db0 i0 5 ⟨0, ⟨2025, 3, 15⟩⟩ (by decide)

/-- C4: a successful registration stores `warrantyEndDate = purchaseDate
plus one calendar year` under the JS `setFullYear` rule (month and day
preserved); 2024-03-15 yields 2025-03-15, and the leap day 2024-02-29
yields the valid date 2025-03-01 by the fixed roll-forward rule. -/
theorem C4_warranty_end_date :
    (∀ db i now pd r, i.purchaseDate = some pd →
      (register db i now).2 = .ok r →
      r.warrantyEndDate = addOneYear pd ∧
      ∃ reg ∈ (register db i now).1.ledger,
        reg.id = r.registrationId ∧ reg.warrantyEndDate = addOneYear pd ∧
        reg.purchaseDate = pd) ∧
    addOneYear ⟨2024, 3, 15⟩ = ⟨2025, 3, 15⟩ ∧
    addOneYear ⟨2024, 2, 29⟩ = ⟨2025, 3, 1⟩ ∧
    (addOneYear ⟨2024, 2, 29⟩).valid = true := by
  refine ⟨?_, by decide, by decide, by decide⟩
  intro db i now pd r hpd hok
  obtain ⟨w0, pd2, hfa, hpd2, hv, hr⟩ := register_ok_inv hok
  have hpdeq : pd2 = pd := by
    rw [hpd] at hpd2
    exact (Option.some.inj hpd2).symm
  rw [hpdeq] at hpd2 hr
  constructor
  · rw [hr]
  · rw [register_eq_ok hfa hpd2 hv]
    refine ⟨mkRegistration i pd now db.nextRegId,
      List.mem_append_right _ (by simp), ?_, rfl, rfl⟩
    rw [hr]
    rfl

/-- Witness for C4 at the concrete 2024-03-15 submission. -/
theorem C4_warranty_end_date_witness :
    (⟨0, ⟨2025, 3, 15⟩⟩ : RegisterOk).warrantyEndDate =
      addOneYear ⟨2024, 3, 15⟩ ∧
    ∃ reg ∈ (register db0 i0 5).1.ledger,
      reg.id = (⟨0, ⟨2025, 3, 15⟩⟩ : RegisterOk).registrationId ∧
      reg.warrantyEndDate = addOneYear ⟨2024, 3, 15⟩ ∧
      reg.purchaseDate = ⟨2024, 3, 15⟩ :=
  C4_warranty_end_date.1 db0 i0 5 ⟨2024, 3, 15⟩ ⟨0, ⟨2025, 3, 15⟩⟩
    (by decide) (by decide)

/-- C10: when the pool lookup has selected an available record but
creating the registration fails Mongoose validation (a required field
is missing), `register` reports the validation error and the state —
in particular the selected pool record, still unused — is completely
unchanged, because the mark-used step only runs after a successful
create. -/
theorem C10_create_failure_no_pool_mutation (db : DB) (i : RegisterInput)
    (now : Nat) (w0 : WarrantyNumberRecord)
    (hfa : findAvailable db.pool i.warrantyNumber i.productId = some w0)
    (hv : i.validFields = false) :
    register db i now = (db, .error .validationError) ∧
    w0 ∈ db.pool ∧ w0.isUsed = false ∧
    (register db i now).1.pool = db.pool ∧
    (register db i now).1.ledger = db.ledger := by
  have heq : register db i now = (db, .error .validationError) :=
    register_eq_error_invalid hfa hv
  have hp := List.find?_some hfa
  simp only [Bool.and_eq_true, beq_iff_eq] at hp
  exact ⟨heq, List.mem_of_find?_eq_some hfa, hp.2, by rw [heq], by rw [heq]⟩

/-- Witness for C10: a submission with a missing first name. -/
theorem C10_create_failure_no_pool_mutation_witness :
    register db0 i0bad 5 = (db0, .error .validationError) ∧
    (⟨0, "WN-1", "P1", "Headset", false, none, none, 0⟩ :
      WarrantyNumberRecord) ∈ db0.pool ∧
    (⟨0, "WN-1", "P1", "Headset", false, none, none, 0⟩ :
      WarrantyNumberRecord).isUsed = false ∧
    (register db0 i0bad 5).1.pool = db0.pool ∧
    (register db0 i0bad 5).1.ledger = db0.ledger :=
  C10_create_failure_no_pool_mutation db0 i0bad 5
    ⟨0, "WN-1", "P1", "Headset", false, none, none, 0⟩ (by decide) (by decide)

/-- C6: `unlinkRegistration` is state-for-state identical to
`deleteRegistration`: literally the same resulting database and
outcome, NotFound exactly when the id is absent, and on success the
registration is removed from the ledger and the pool record carrying
its code is freed (under the unique-code index). -/
theorem C6_unlink_equals_delete (db : DB) (rid : Nat) :
    unlinkRegistration db rid = deleteRegistration db rid ∧
    ((unlinkRegistration db rid).2 = .error .notFound ↔
      ∀ r ∈ db.ledger, r.id ≠ rid) ∧
    (∀ reg, db.ledger.find? (fun r => r.id == rid) = some reg →
      (∀ r ∈ (unlinkRegistration db rid).1.ledger, r.id ≠ rid) ∧
      ((db.pool.map fun w => w.warrantyNumber).Nodup →
        ∀ w ∈ (unlinkRegistration db rid).1.pool,
          w.warrantyNumber = reg.warrantyNumber →
            w.isUsed = false ∧ w.usedAt = none ∧ w.registrationId = none)) := by
  refine ⟨rfl, ?_, ?_⟩
  · cases hfind : db.ledger.find? (fun r => r.id == rid) with
    | none =>
      rw [unlink_eq_delete, delete_eq_none hfind]
      rw [List.find?_eq_none] at hfind
      constructor
      · intro _ r hr hrid
        exact (hfind r hr) (by simp [hrid])
      · intro _
        rfl
    | some reg =>
      rw [unlink_eq_delete, delete_eq_some hfind]
      constructor
      · intro habs
        simp at habs
      · intro hall
        have hmem := List.mem_of_find?_eq_some hfind
        have hid : reg.id = rid := by
          have := List.find?_some hfind
          rwa [beq_iff_eq] at this
        exact absurd hid (hall reg hmem)
  · intro reg hfind
    rw [unlink_eq_delete, delete_eq_some hfind]
    constructor
    · intro r hr
      have hq := (List.mem_filter.mp hr).2
      simpa using hq
    · intro hnodup w hw hwwn
      exact markFree_frees hnodup w hw hwwn

/-- Witness for C6 at the concrete one-registration state. -/
theorem C6_unlink_equals_delete_witness :
    unlinkRegistration db1 0 = deleteRegistration db1 0 ∧
    ((unlinkRegistration db1 0).2 = .error .notFound ↔
      ∀ r ∈ db1.ledger, r.id ≠ 0) ∧
    (∀ r ∈ (unlinkRegistration db1 0).1.ledger, r.id ≠ 0) ∧
    (∀ w ∈ (unlinkRegistration db1 0).1.pool,
      w.warrantyNumber = regA.warrantyNumber →
        w.isUsed = false ∧ w.usedAt = none ∧ w.registrationId = none) :=
  ⟨(C6_unlink_equals_delete db1 0).1,
   (C6_unlink_equals_delete db1 0).2.1,
   ((C6_unlink_equals_delete db1 0).2.2 regA (by decide)).1,
   ((C6_unlink_equals_delete db1 0).2.2 regA (by decide)).2 (by decide)⟩

theorem bulk_count (now : Nat) (items : List (String × String × String))
    (acc : DB × Nat × List BulkError) :
    (items.foldl (bulkStep now) acc).2.1 +
      (items.foldl (bulkStep now) acc).2.2.length
      = acc.2.1 + acc.2.2.length + items.length := by
  induction items generalizing acc with
  | nil => simp
  | cons item rest ih =>
    rw [List.foldl_cons, ih (bulkStep now acc item)]
    have hstep : (bulkStep now acc item).2.1 + (bulkStep now acc item).2.2.length
        = acc.2.1 + acc.2.2.length + 1 := by
      unfold bulkStep
      by_cases h1 : (item.1 == "" || item.2.1 == "" || item.2.2 == "") = true
      · simp [h1]
        omega
      · by_cases h2 : acc.1.pool.any (fun r => r.warrantyNumber == item.1) = true
        · simp [h1, h2]
          omega
        · simp [h1, h2]
          omega
    simp [List.length_cons]
    omega

/-- C7: the bulk upload inserts each parsed record independently —
the success count plus the number of collected per-item errors always
equals the number of well-formed rows, and a malformed row (missing or
empty column) is dropped before any insertion is attempted; on the
concrete five-row upload whose third code duplicates the existing
`WN-1`, the result is four successes, exactly one error naming the
duplicate code, and the other four codes present in the pool. -/
theorem C7_bulk_insert_independent :
    (∀ db rows now,
      (bulkInsert db rows now).2.1 + (bulkInsert db rows now).2.2.length
        = (parseRows rows).length) ∧
    (∀ db rows now d, rowKept d = false →
      bulkInsert db (d :: rows) now = bulkInsert db rows now) ∧
    (bulkInsert db0 c7rows 7).2.1 = 4 ∧
    (bulkInsert db0 c7rows 7).2.2 = [.alreadyExists "WN-1"] ∧
    ((["W1", "W2", "W4", "W5"] : List String).all fun c =>
      (bulkInsert db0 c7rows 7).1.pool.any fun w => w.warrantyNumber == c) = true ∧
    (bulkInsert db0 c7rows 7).1.pool.length = 5 := by
  refine ⟨?_, ?_, by decide, by decide, by decide, by decide⟩
  · intro db rows now
    unfold bulkInsert
    have h := bulk_count now (parseRows rows) (db, 0, [])
    simpa using h
  · intro db rows now d hd
    unfold bulkInsert parseRows
    rw [List.filterMap_cons]
    have hnone : (match d.warrantyNumber, d.productId, d.productName with
        | some wn, some pid, some pname =>
          if wn != "" && pid != "" && pname != "" then
            some (trimWS wn, trimWS pid, trimWS pname)
          else none
        | _, _, _ => none) = none := by
      unfold rowKept at hd
      obtain ⟨wn, pid, pname⟩ := d
      cases wn <;> cases pid <;> cases pname <;> simp_all
    rw [hnone]

/-- Witness for C7's skip clause: a row with an empty product column is
dropped without affecting the batch. -/
theorem C7_bulk_insert_independent_witness :
    bulkInsert db0 (⟨some "W9", some "", some "N9"⟩ :: c7rows) 7
      = bulkInsert db0 c7rows 7 :=
  C7_bulk_insert_independent.2.1 db0 c7rows 7
    ⟨some "W9", some "", some "N9"⟩ (by decide)

theorem processPatch_wn (p : UpdatePatch) (admin : String) (now : Nat) :
    (processPatch p admin now).warrantyNumber = none := by
  unfold processPatch
  cases hpd : p.purchaseDate <;> dsimp <;> split <;> rfl

theorem applyPatch_frame (reg : RegistrationRecord) (p : UpdatePatch) :
    unchangedWhereUnpatched p reg (applyPatch reg p) := by
  unfold unchangedWhereUnpatched applyPatch
  refine ⟨rfl, ?_, ?_, ?_, ?_, ?_, ?_, ?_, ?_, ?_, ?_, ?_, ?_, ?_, ?_, ?_, ?_,
    rfl, rfl⟩ <;>
    (intro h; simp [h, setOpt])

theorem update_eq_some {db : DB} {rid : Nat} {p : UpdatePatch}
    {admin : String} {now : Nat} {reg : RegistrationRecord}
    (hvalid : patchValid (processPatch p admin now) = true)
    (hfind : db.ledger.find? (fun r => r.id == rid) = some reg) :
    updateRegistration db rid p admin now =
      ({ db with
         ledger := db.ledger.map
           (fun r => if r.id == rid then
             applyPatch reg (processPatch p admin now) else r) },
       .ok (applyPatch reg (processPatch p admin now))) := by
  unfold updateRegistration
  simp [hvalid, hfind]

theorem update_eq_invalid {db : DB} {rid : Nat} {p : UpdatePatch}
    {admin : String} {now : Nat}
    (hvalid : patchValid (processPatch p admin now) = false) :
    updateRegistration db rid p admin now = (db, .error .validationError) := by
  unfold updateRegistration
  simp [hvalid]

theorem update_eq_notFound {db : DB} {rid : Nat} {p : UpdatePatch}
    {admin : String} {now : Nat}
    (hvalid : patchValid (processPatch p admin now) = true)
    (hfind : db.ledger.find? (fun r => r.id == rid) = none) :
    updateRegistration db rid p admin now = (db, .error .notFound) := by
  unfold updateRegistration
  simp [hvalid, hfind]

theorem update_ok_inv {db : DB} {rid : Nat} {p : UpdatePatch}
    {admin : String} {now : Nat} {db2 : DB} {reg2 : RegistrationRecord}
    (hrun : updateRegistration db rid p admin now = (db2, .ok reg2)) :
    patchValid (processPatch p admin now) = true ∧
    ∃ reg, db.ledger.find? (fun r => r.id == rid) = some reg ∧
      reg2 = applyPatch reg (processPatch p admin now) ∧
      db2 = { db with
              ledger := db.ledger.map
                (fun r => if r.id == rid then reg2 else r) } := by
  cases hvalid : patchValid (processPatch p admin now) with
  | false =>
    rw [update_eq_invalid hvalid] at hrun
    simp at hrun
  | true =>
    cases hfind : db.ledger.find? (fun r => r.id == rid) with
    | none =>
      rw [update_eq_notFound hvalid hfind] at hrun
      simp at hrun
    | some reg =>
      rw [update_eq_some hvalid hfind] at hrun
      rw [Prod.mk.injEq] at hrun
      obtain ⟨hA, hB⟩ := hrun
      have hreg2 : reg2 = applyPatch reg (processPatch p admin now) :=
        (Except.ok.inj hB).symm
      refine ⟨rfl, reg, rfl, hreg2, ?_⟩
      rw [← hA, hreg2]

/-- C8: an update never changes the stored warranty number — the route
deletes any `warrantyNumber` key from the patch before applying it, so
a patch attempting to change it succeeds without error while the stored
value stays what it was — and every field the processed patch does not
mention is unchanged as well. -/
theorem C8_update_preserves_code (db : DB) (rid : Nat) (p : UpdatePatch)
    (admin : String) (now : Nat) (db2 : DB) (reg2 reg : RegistrationRecord)
    (hrun : updateRegistration db rid p admin now = (db2, .ok reg2))
    (hfind : db.ledger.find? (fun r => r.id == rid) = some reg) :
    reg2.warrantyNumber = reg.warrantyNumber ∧
    unchangedWhereUnpatched (processPatch p admin now) reg reg2 ∧
    (∀ x, updateRegistration db rid { warrantyNumber := some x } admin now
      = ({ db with ledger :=
            db.ledger.map (fun r => if r.id == rid then reg else r) },
         .ok reg)) := by
  obtain ⟨hvalid, regF, hfindF, hreg2, hdb2⟩ := update_ok_inv hrun
  have hregF : regF = reg := by
    rw [hfindF] at hfind
    exact Option.some.inj hfind
  rw [hregF] at hreg2
  refine ⟨?_, ?_, ?_⟩
  · rw [hreg2]
    show (processPatch p admin now).warrantyNumber.getD reg.warrantyNumber
      = reg.warrantyNumber
    rw [processPatch_wn]
    rfl
  · rw [hreg2]
    exact applyPatch_frame reg (processPatch p admin now)
  · intro x
    exact update_eq_some rfl hfind

/-- Witness for C8: patching only the warranty number of the concrete
registered state leaves the record — including its code — unchanged. -/
theorem C8_update_preserves_code_witness :
    regA.warrantyNumber = regA.warrantyNumber ∧
    unchangedWhereUnpatched (processPatch wnPatch "admin" 9) regA regA ∧
    (∀ x, updateRegistration db1 0 { warrantyNumber := some x } "admin" 9
      = ({ db1 with ledger :=
            db1.ledger.map (fun r => if r.id == 0 then regA else r) },
         .ok regA)) :=
  C8_update_preserves_code db1 0 wnPatch "admin" 9
    { db1 with ledger := db1.ledger.map (fun r => if r.id == 0 then regA else r) }
    regA regA (by decide) (by decide)

theorem processPatch_claimed {p : UpdatePatch} (admin : String) (now : Nat)
    (h : p.status = some "claimed") :
    (processPatch p admin now).claimDate = some (p.claimDate.getD now) ∧
    (processPatch p admin now).claimProcessedBy = some admin := by
  unfold processPatch
  cases hpd : p.purchaseDate <;> simp [hpd, h]

/-- C9: an update whose patch sets `status` to `claimed` stamps
`claimDate` with the current time when the patch supplies none — a
supplied `claimDate` is kept instead — and stamps `claimProcessedBy`
with the acting admin's username. -/
theorem C9_claim_stamping (db : DB) (rid : Nat) (p : UpdatePatch)
    (admin : String) (now : Nat) (reg : RegistrationRecord)
    (hfind : db.ledger.find? (fun r => r.id == rid) = some reg)
    (hstatus : p.status = some "claimed")
    (hvalid : patchValid (processPatch p admin now) = true) :
    ∃ reg2, (updateRegistration db rid p admin now).2 = .ok reg2 ∧
      reg2.claimDate = some (p.claimDate.getD now) ∧
      reg2.claimProcessedBy = some admin ∧
      (p.claimDate = none → reg2.claimDate = some now) ∧
      (∀ t, p.claimDate = some t → reg2.claimDate = some t) := by
  obtain ⟨hcd, hcpb⟩ := processPatch_claimed admin now hstatus
  refine ⟨applyPatch reg (processPatch p admin now), ?_, ?_, ?_, ?_, ?_⟩
  · rw [update_eq_some hvalid hfind]
  · show setOpt (processPatch p admin now).claimDate reg.claimDate
      = some (p.claimDate.getD now)
    rw [hcd]
    rfl
  · show setOpt (processPatch p admin now).claimProcessedBy reg.claimProcessedBy
      = some admin
    rw [hcpb]
    rfl
  · intro h0
    show setOpt (processPatch p admin now).claimDate reg.claimDate = some now
    rw [hcd, h0]
    rfl
  · intro t ht
    show setOpt (processPatch p admin now).claimDate reg.claimDate = some t
    rw [hcd, ht]
    rfl

/-- Witness for C9: processing a claim on the concrete registered
state stamps the clock value 9 and the admin's username. -/
theorem C9_claim_stamping_witness :
    ∃ reg2, (updateRegistration db1 0 claimPatch "admin" 9).2 = .ok reg2 ∧
      reg2.claimDate = some (claimPatch.claimDate.getD 9) ∧
      reg2.claimProcessedBy = some "admin" ∧
      (claimPatch.claimDate = none → reg2.claimDate = some 9) ∧
      (∀ t, claimPatch.claimDate = some t → reg2.claimDate = some t) :=
  C9_claim_stamping db1 0 claimPatch "admin" 9 regA
    (by decide) (by decide) (by decide)

theorem register_succeeds {db : DB} {i : RegisterInput} {now : Nat}
    (hfound : (findAvailable db.pool i.warrantyNumber i.productId).isSome)
    (hv : i.validFields = true) :
    ∃ r, (register db i now).2 = .ok r := by
  obtain ⟨w0, hfa⟩ := Option.isSome_iff_exists.mp hfound
  have hvv := hv
  unfold RegisterInput.validFields at hvv
  simp only [Bool.and_eq_true] at hvv
  obtain ⟨pd, hpd⟩ := Option.isSome_iff_exists.mp hvv.2
  exact ⟨⟨db.nextRegId, addOneYear pd⟩, by rw [register_eq_ok hfa hpd hv]⟩

/-- C5: from any invariant-satisfying state holding an available code
matching the submission, registering succeeds; deleting the created
registration then answers the freed code, leaves every pool record
carrying that code available again (`isUsed = false`, `usedAt` and
`registrationId` cleared), and a subsequent registration with the same
code and product succeeds. -/
theorem C5_register_delete_reregister (db : DB) (i i2 : RegisterInput)
    (now1 now2 : Nat) (hinv : Inv db)
    (hfound : (findAvailable db.pool i.warrantyNumber i.productId).isSome)
    (hv : i.validFields = true)
    (h2wn : i2.warrantyNumber = i.warrantyNumber)
    (h2pid : i2.productId = i.productId)
    (h2v : i2.validFields = true) :
    ∃ r1, (register db i now1).2 = .ok r1 ∧
      (deleteRegistration (register db i now1).1 r1.registrationId).2
        = .ok i.warrantyNumber ∧
      (∀ w ∈ (deleteRegistration (register db i now1).1
          r1.registrationId).1.pool,
        w.warrantyNumber = i.warrantyNumber →
          w.isUsed = false ∧ w.usedAt = none ∧ w.registrationId = none) ∧
      ∃ r2, (register (deleteRegistration (register db i now1).1
          r1.registrationId).1 i2 now2).2 = .ok r2 := by
  obtain ⟨w0, hfa⟩ := Option.isSome_iff_exists.mp hfound
  have hvv := hv
  unfold RegisterInput.validFields at hvv
  simp only [Bool.and_eq_true] at hvv
  obtain ⟨pd, hpd⟩ := Option.isSome_iff_exists.mp hvv.2
  have hw0mem : w0 ∈ db.pool := List.mem_of_find?_eq_some hfa
  have hp := List.find?_some hfa
  simp only [Bool.and_eq_true, beq_iff_eq] at hp
  obtain ⟨⟨hw0wn, hw0pid⟩, hw0used⟩ := hp
  have hreg1 : register db i now1 =
      ({ pool := markUsedStep db.pool w0.id now1 db.nextRegId
         ledger := db.ledger ++ [mkRegistration i pd now1 db.nextRegId]
         nextPoolId := db.nextPoolId
         nextRegId := db.nextRegId + 1 },
       .ok ⟨db.nextRegId, addOneYear pd⟩) := register_eq_ok hfa hpd hv
  have hfind1 : (db.ledger ++ [mkRegistration i pd now1 db.nextRegId]).find?
      (fun r => r.id == db.nextRegId) = some (mkRegistration i pd now1 db.nextRegId) := by
    rw [List.find?_append]
    have hnone : db.ledger.find? (fun r => r.id == db.nextRegId) = none := by
      rw [List.find?_eq_none]
      intro r hr
      have hlt := hinv.2.2.2.2 r hr
      simp only [beq_iff_eq]
      omega
    rw [hnone]
    simp [List.find?, mkRegistration]
  have hdel : deleteRegistration
      ({ pool := markUsedStep db.pool w0.id now1 db.nextRegId
         ledger := db.ledger ++ [mkRegistration i pd now1 db.nextRegId]
         nextPoolId := db.nextPoolId
         nextRegId := db.nextRegId + 1 } : DB) db.nextRegId =
      ({ pool := markFreeStep (markUsedStep db.pool w0.id now1 db.nextRegId)
           i.warrantyNumber
         ledger := (db.ledger ++ [mkRegistration i pd now1 db.nextRegId]).filter
           (fun r => r.id != db.nextRegId)
         nextPoolId := db.nextPoolId
         nextRegId := db.nextRegId + 1 },
       .ok i.warrantyNumber) := delete_eq_some hfind1
  have hinvA := inv_register db i now1 hinv
  rw [hreg1] at hinvA
  have hcodesA : ((markUsedStep db.pool w0.id now1 db.nextRegId).map
      (fun w => w.warrantyNumber)).Nodup := hinvA.2.1
  refine ⟨⟨db.nextRegId, addOneYear pd⟩, by rw [hreg1], ?_, ?_, ?_⟩
  · show (deleteRegistration (register db i now1).1 db.nextRegId).2
      = .ok i.warrantyNumber
    rw [hreg1]
    exact congrArg Prod.snd hdel
  · show ∀ w ∈ (deleteRegistration (register db i now1).1 db.nextRegId).1.pool,
      w.warrantyNumber = i.warrantyNumber →
        w.isUsed = false ∧ w.usedAt = none ∧ w.registrationId = none
    rw [hreg1]
    intro w hw hwwn
    have hw2 : w ∈ markFreeStep (markUsedStep db.pool w0.id now1 db.nextRegId)
        i.warrantyNumber := by
      have := congrArg (fun x => x.1.pool) hdel
      simp only [] at this
      rw [this] at hw
      exact hw
    exact markFree_frees hcodesA w hw2 hwwn
  · show ∃ r2, (register (deleteRegistration (register db i now1).1
        db.nextRegId).1 i2 now2).2 = .ok r2
    rw [hreg1]
    have hpool : (deleteRegistration
        ({ pool := markUsedStep db.pool w0.id now1 db.nextRegId
           ledger := db.ledger ++ [mkRegistration i pd now1 db.nextRegId]
           nextPoolId := db.nextPoolId
           nextRegId := db.nextRegId + 1 } : DB) db.nextRegId).1.pool =
        markFreeStep (markUsedStep db.pool w0.id now1 db.nextRegId)
          i.warrantyNumber := by
      rw [hdel]
    refine register_succeeds ?_ h2v
    show (findAvailable (deleteRegistration
        ({ pool := markUsedStep db.pool w0.id now1 db.nextRegId
           ledger := db.ledger ++ [mkRegistration i pd now1 db.nextRegId]
           nextPoolId := db.nextPoolId
           nextRegId := db.nextRegId + 1 } : DB) db.nextRegId).1.pool
      i2.warrantyNumber i2.productId).isSome
    rw [hpool, h2wn, h2pid]
    unfold findAvailable
    rw [List.find?_isSome]
    refine ⟨freeRecord { w0 with
      isUsed := true, usedAt := some now1,
      registrationId := some db.nextRegId }, ?_, ?_⟩
    · exact mem_markFreeStep_free hcodesA
        (mem_markUsedStep_self hw0mem rfl) hw0wn
    · simp [freeRecord, hw0wn, hw0pid]

/-- Witness for C5 at the concrete one-code pool. -/
theorem C5_register_delete_reregister_witness :
    ∃ r1, (register db0 i0 5).2 = .ok r1 ∧
      (deleteRegistration (register db0 i0 5).1 r1.registrationId).2
        = .ok i0.warrantyNumber ∧
      (∀ w ∈ (deleteRegistration (register db0 i0 5).1
          r1.registrationId).1.pool,
        w.warrantyNumber = i0.warrantyNumber →
          w.isUsed = false ∧ w.usedAt = none ∧ w.registrationId = none) ∧
      ∃ r2, (register (deleteRegistration (register db0 i0 5).1
          r1.registrationId).1 i0 9).2 = .ok r2 :=
  C5_register_delete_reregister db0 i0 i0 5 9 (by decide) (by decide)
    (by decide) rfl rfl (by decide)

end LdasWarranty
